import Mathlib

/-!
Verification of the repomgr repository-dashboard core logic.

The development shallowly embeds the reconciliation, filtering, pagination
and import/export logic of the two page components
(`src/routes/+page.svelte` in its two revisions) and of the GraphQL proxy
endpoint (`src/routes/api/repos/+server.ts`) as executable Lean functions,
and proves the specified properties about them.

Conventions of the embedding:
* JavaScript `Record<string, T>` objects are association lists with unique
  keys; member access is association-list lookup.
* Machine JSON values are the inductive `Json` below; `JSON.parse` composed
  with `JSON.stringify` is the identity on such values, so the import/export
  codec is modelled at the parsed-value level.
* JavaScript truthiness is the `Json.truthy` predicate (empty arrays and
  objects are truthy, as in JavaScript).
-/

set_option autoImplicit false

namespace Repomgr

/-- First-match lookup in an association list with string keys, modelling
JavaScript object member access `m[k]` (objects have unique keys, so
first-match agrees with the object semantics). -/
def lookupStr {β : Type} : List (String × β) → String → Option β
  | [], _ => none
  | (k', v) :: rest, k => if k' = k then some v else lookupStr rest k

/-- Set the value of key `k`, replacing an existing binding in place or
appending a new one at the end: the semantics of `m[k] = v` on a
JavaScript object. -/
def setKey {β : Type} : List (String × β) → String → β → List (String × β)
  | [], k, v => [(k, v)]
  | (k', v') :: rest, k, v =>
    if k' = k then (k, v) :: rest else (k', v') :: setKey rest k v

theorem lookupStr_setKey_self {β : Type} (m : List (String × β)) (k : String) (v : β) :
    lookupStr (setKey m k v) k = some v := by
  induction m with
  | nil => simp [setKey, lookupStr]
  | cons hd tl ih =>
    by_cases h : hd.1 = k
    · simp [setKey, h, lookupStr]
    · simp [setKey, h, lookupStr, ih]

theorem lookupStr_setKey_ne {β : Type} (m : List (String × β)) (k k' : String) (v : β)
    (h : k ≠ k') : lookupStr (setKey m k v) k' = lookupStr m k' := by
  induction m with
  | nil => simp [setKey, lookupStr, h]
  | cons hd tl ih =>
    by_cases hk : hd.1 = k
    · simp [setKey, hk, lookupStr, h]
    · simp only [setKey, hk, if_false, lookupStr]
      by_cases hk' : hd.1 = k' <;> simp [hk', ih]

/-- The `Repo` record type of the page component (`type Repo` in
`+page.svelte`).  The source field `private` is a reserved word in Lean and
is embedded as `isPrivate`; `owner` is the `owner.login` string. -/
structure Repo where
  name : String
  html_url : String
  description : Option String
  language : Option String
  fork : Bool
  isPrivate : Bool
  stargazers_count : Nat
  created_at : String
  size : Nat
  owner : String
  commits : Option Nat
deriving DecidableEq, Repr

/-- The owner-qualified repo key: `repoKey` in the source. -/
def repoKey (r : Repo) : String :=
  r.owner ++ "/" ++ r.name

/-- The `getType` function of the page component. -/
def getType (r : Repo) : String :=
  if r.fork then "Fork" else if r.isPrivate then "Private" else "Public"

/-- The inline `filterFn` of the `type` column. -/
def typeFilterFn (r : Repo) (filterValue : String) : Bool :=
  let type := getType r
  if filterValue = "Sources" then
    type == "Public" || type == "Private"
  else
    type == filterValue

/-- The inline `filterFn` of the `class` column; `repoClasses` is the
class-label annotation layer keyed by the owner-qualified repo key. -/
def classFilterFn (repoClasses : List (String × String)) (r : Repo)
    (filterValue : String) : Bool :=
  let cls := (lookupStr repoClasses (repoKey r)).getD ""
  if filterValue = "(none)" then cls == "" else cls == filterValue

/-- JavaScript `a || b` restricted to strings, where `undefined` and `null`
operands are embedded as `""` (all three are falsy and the result below is
the same fallback value). -/
def jsOrString (a b : String) : String :=
  if a = "" then b else a

/-- The resolved description of the `description` column accessor:
`repoDescriptions[repoKey(row)] || row.description || ''`. -/
def resolvedDescription (repoDescriptions : List (String × String)) (r : Repo) : String :=
  jsOrString (jsOrString ((lookupStr repoDescriptions (repoKey r)).getD "")
    (r.description.getD "")) ""

/-- Modelled from the spec's description rule, for comparison with
`resolvedDescription`: the override wins when non-empty (an empty override
is treated as absent), otherwise the remote description when present,
otherwise the empty value. -/
def resolvedDescriptionSpec (repoDescriptions : List (String × String)) (r : Repo) : String :=
  match lookupStr repoDescriptions (repoKey r) with
  | some o => if o ≠ "" then o else r.description.getD ""
  | none => r.description.getD ""

/-- The `combinedUrls` derived record of the newer page component: iterate
the tofu-URL entries, keeping only truthy (non-empty) URLs as singleton
arrays, then iterate the custom-URL entries, appending each array to
whatever the first pass put under the same key. -/
def combinedUrls (tofuUrls : List (String × String))
    (customUrls : List (String × List String)) : List (String × List String) :=
  let result := tofuUrls.foldl
    (fun acc kv => if kv.2 ≠ "" then setKey acc kv.1 [kv.2] else acc) []
  customUrls.foldl
    (fun acc kv => setKey acc kv.1 (((lookupStr acc kv.1).getD []) ++ kv.2)) result

/-- The `pages_url` column accessor `(combinedUrls[row.name] ?? [])`:
the reconciled URL sequence of one repository, looked up by its bare name. -/
def pagesUrlsOf (tofuUrls : List (String × String))
    (customUrls : List (String × List String)) (r : Repo) : List String :=
  (lookupStr (combinedUrls tofuUrls customUrls) r.name).getD []

/-- The contribution of the tofu (infrastructure) URL layer to the
reconciled sequence for key `name`: the URL as a singleton when present
and non-empty, nothing otherwise. -/
def tofuPart (tofuUrls : List (String × String)) (name : String) : List String :=
  match lookupStr tofuUrls name with
  | some u => if u = "" then [] else [u]
  | none => []

/-- The contribution of the custom-URL layer for key `name`: the stored
array when present (not filtered, not deduplicated), nothing otherwise. -/
def customPart (customUrls : List (String × List String)) (name : String) : List String :=
  (lookupStr customUrls name).getD []

theorem lookupStr_eq_none_of_not_mem {β : Type} (m : List (String × β)) (k : String)
    (h : k ∉ m.map Prod.fst) : lookupStr m k = none := by
  induction m with
  | nil => rfl
  | cons hd tl ih =>
    simp only [List.map_cons, List.mem_cons, not_or] at h
    simp only [lookupStr]
    rw [if_neg (fun he => h.1 he.symm), ih h.2]

theorem lookupStr_tofu_foldl (tofuUrls : List (String × String))
    (acc : List (String × List String)) (k : String)
    (hnd : (tofuUrls.map Prod.fst).Nodup) :
    lookupStr (tofuUrls.foldl
        (fun acc kv => if kv.2 ≠ "" then setKey acc kv.1 [kv.2] else acc) acc) k =
      match lookupStr tofuUrls k with
      | some u => if u = "" then lookupStr acc k else some [u]
      | none => lookupStr acc k := by
  induction tofuUrls generalizing acc with
  | nil => simp [lookupStr]
  | cons hd tl ih =>
    obtain ⟨k1, v1⟩ := hd
    simp only [List.map_cons, List.nodup_cons] at hnd
    obtain ⟨hmem, hnd'⟩ := hnd
    simp only [List.foldl_cons]
    rw [ih _ hnd']
    by_cases hk : k1 = k
    · subst hk
      rw [lookupStr_eq_none_of_not_mem tl k1 hmem]
      simp only [lookupStr, if_pos rfl]
      by_cases hu : v1 = ""
      · simp [hu]
      · simp [hu, lookupStr_setKey_self]
    · have hacc : lookupStr (if v1 ≠ "" then setKey acc k1 [v1] else acc) k
          = lookupStr acc k := by
        by_cases hu : v1 = "" <;> simp [hu, lookupStr_setKey_ne _ _ _ _ hk]
      simp only [hacc, lookupStr, if_neg hk]

theorem lookupStr_custom_foldl (customUrls : List (String × List String))
    (acc : List (String × List String)) (k : String)
    (hnd : (customUrls.map Prod.fst).Nodup) :
    lookupStr (customUrls.foldl
        (fun acc kv => setKey acc kv.1 (((lookupStr acc kv.1).getD []) ++ kv.2)) acc) k =
      match lookupStr customUrls k with
      | some urls => some (((lookupStr acc k).getD []) ++ urls)
      | none => lookupStr acc k := by
  induction customUrls generalizing acc with
  | nil => simp [lookupStr]
  | cons hd tl ih =>
    obtain ⟨k1, v1⟩ := hd
    simp only [List.map_cons, List.nodup_cons] at hnd
    obtain ⟨hmem, hnd'⟩ := hnd
    simp only [List.foldl_cons]
    rw [ih _ hnd']
    by_cases hk : k1 = k
    · subst hk
      rw [lookupStr_eq_none_of_not_mem tl k1 hmem]
      simp [lookupStr, lookupStr_setKey_self]
    · have hacc : lookupStr (setKey acc k1 (((lookupStr acc k1).getD []) ++ v1)) k
          = lookupStr acc k := lookupStr_setKey_ne _ _ _ _ hk
      simp only [hacc, lookupStr, if_neg hk]

/-- Characterization of a reconciled URL lookup: the tofu part for the bare
name (kept only when non-empty) followed by the custom part for the bare
name, provided each layer has unique keys (they are JavaScript objects). -/
theorem pagesUrlsOf_eq (tofuUrls : List (String × String))
    (customUrls : List (String × List String)) (r : Repo)
    (h1 : (tofuUrls.map Prod.fst).Nodup) (h2 : (customUrls.map Prod.fst).Nodup) :
    pagesUrlsOf tofuUrls customUrls r =
      tofuPart tofuUrls r.name ++ customPart customUrls r.name := by
  unfold pagesUrlsOf combinedUrls
  rw [lookupStr_custom_foldl _ _ _ h2, lookupStr_tofu_foldl _ _ _ h1]
  unfold tofuPart customPart
  cases hc : lookupStr customUrls r.name with
  | none =>
    cases ht : lookupStr tofuUrls r.name with
    | none => simp [lookupStr]
    | some u => by_cases hu : u = "" <;> simp [hu, lookupStr]
  | some urls =>
    cases ht : lookupStr tofuUrls r.name with
    | none => simp [lookupStr]
    | some u => by_cases hu : u = "" <;> simp [hu, lookupStr]

/-! ## Pagination loops

The GraphQL proxy endpoint (`POST` in `+server.ts`) paginates with
`repositories(first: 100, after: cursor)`; the claims suppose a
deterministic cursor sequence, embedded here as a server holding a fixed
record list and using list positions as cursors: the page at position `p`
has `nodes = (records.drop p).take 100`,
`hasNextPage = p + 100 < records.length` and `endCursor = p + 100`. -/

/-- The `while (hasNextPage)` loop of the `POST` handler over the
deterministic cursor server, entered at cursor position `pos` (the handler
starts with `hasNextPage = true` and a null cursor, i.e. position 0, so the
body always runs at least once).  Returns the accumulated `allRepos`
together with the number of page requests issued; each recursive call
passes the page's `endCursor` (`pos + 100`) as the next cursor. -/
def postPaginate {α : Type} (records : List α) (pos : Nat) : List α × Nat :=
  let nodes := (records.drop pos).take 100
  if h : pos + 100 < records.length then
    let rest := postPaginate records (pos + 100)
    (nodes ++ rest.1, rest.2 + 1)
  else
    (nodes, 1)
termination_by records.length - pos
decreasing_by omega

theorem postPaginate_eq {α : Type} (records : List α) (pos : Nat) :
    (postPaginate records pos).1 = records.drop pos ∧
      (postPaginate records pos).2 = max 1 ((records.length - pos + 99) / 100) := by
  induction pos using postPaginate.induct records with
  | case1 pos h ih =>
    rw [postPaginate, dif_pos h]
    constructor
    · show ((records.drop pos).take 100 ++ (postPaginate records (pos + 100)).1)
        = records.drop pos
      have hdd : records.drop (pos + 100) = (records.drop pos).drop 100 := by
        rw [List.drop_drop]
      rw [ih.1, hdd]
      exact List.take_append_drop 100 (records.drop pos)
    · show (postPaginate records (pos + 100)).2 + 1 = _
      rw [ih.2]
      have e1 : records.length - (pos + 100) + 99 = records.length - pos - 1 := by
        omega
      have e2 : records.length - pos + 99 = records.length - pos - 1 + 100 := by
        omega
      rw [e1, e2, Nat.add_div_right _ (by norm_num)]
      have g1 : 1 ≤ (records.length - pos - 1) / 100 :=
        (Nat.one_le_div_iff (by norm_num)).2 (by omega)
      omega
  | case2 pos h =>
    rw [postPaginate, dif_neg h]
    rw [Nat.not_lt] at h
    constructor
    · show (records.drop pos).take 100 = records.drop pos
      apply List.take_of_length_le
      simp only [List.length_drop]
      omega
    · show 1 = _
      have hlt : (records.length - pos + 99) / 100 < 2 :=
        Nat.div_lt_of_lt_mul (by omega)
      omega

/-- The no-token REST endpoint `.../users/{username}/repos?per_page=100&page={n}`
over a deterministic server holding `records`: page `n` (1-indexed) returns
the next slice of at most 100 records. -/
def serveRest {α : Type} (records : List α) (page : Nat) : List α :=
  (records.drop ((page - 1) * 100)).take 100

/-- The `while (true)` loop of the no-token path of `fetchRepos`: request
page `page`, concatenate the returned data, stop when a page has fewer than
100 records, else advance to the next page number.  Returns the accumulated
list and the number of page requests issued. -/
def restPaginate {α : Type} (records : List α) (page : Nat) : List α × Nat :=
  if h : (serveRest records page).length < 100 then
    (serveRest records page, 1)
  else
    let rest := restPaginate records (page + 1)
    (serveRest records page ++ rest.1, rest.2 + 1)
termination_by records.length / 100 + 2 - page
decreasing_by
  simp only [serveRest, List.length_take, List.length_drop] at h
  have h2 : page * 100 ≤ records.length := by omega
  have h3 : page ≤ records.length / 100 := (Nat.le_div_iff_mul_le (by norm_num)).2 h2
  omega

theorem restPaginate_eq {α : Type} (records : List α) (page : Nat) (hp : 1 ≤ page) :
    (restPaginate records page).1 = records.drop ((page - 1) * 100) ∧
      (restPaginate records page).2 = (records.length - (page - 1) * 100) / 100 + 1 := by
  induction page using restPaginate.induct records with
  | case1 page h =>
    rw [restPaginate, dif_pos h]
    simp only [serveRest, List.length_take, List.length_drop] at h
    constructor
    · show (records.drop ((page - 1) * 100)).take 100 = _
      apply List.take_of_length_le
      simp only [List.length_drop]
      omega
    · show 1 = _
      have hz : (records.length - (page - 1) * 100) / 100 = 0 :=
        Nat.div_eq_of_lt (by omega)
      omega
  | case2 page h ih =>
    rw [restPaginate, dif_neg h]
    simp only [serveRest, List.length_take, List.length_drop] at h
    obtain ⟨ih1, ih2⟩ := ih (by omega)
    constructor
    · show serveRest records page ++ (restPaginate records (page + 1)).1 = _
      rw [ih1]
      have hdd : records.drop ((page + 1 - 1) * 100)
          = (records.drop ((page - 1) * 100)).drop 100 := by
        rw [List.drop_drop]
        congr 1
        omega
      rw [hdd]
      simp only [serveRest]
      exact List.take_append_drop 100 _
    · show (restPaginate records (page + 1)).2 + 1 = _
      rw [ih2]
      have e2 : records.length - (page - 1) * 100
          = (records.length - (page + 1 - 1) * 100) + 100 := by omega
      rw [e2, Nat.add_div_right _ (by norm_num)]

/-! ## Failure behaviour of a fetch attempt

For error-handling claims the page server is a fallible function.  The
`POST` handler of `+server.ts` aborts the whole loop on the first failed
page request and responds with an error and no repos; the client
`fetchRepos` then throws, sets the error message, clears the in-memory
list, and never reaches `persistGithub()`, so the persisted snapshot keeps
its previous value. -/

/-- One GraphQL page: `nodes`, `pageInfo.hasNextPage`, `pageInfo.endCursor`
(cursors are embedded as naturals). -/
structure GqlPage (α : Type) where
  nodes : List α
  hasNextPage : Bool
  endCursor : Nat

/-- The `while (hasNextPage)` loop of the `POST` handler over a fallible
page server.  `fuel` bounds the number of iterations so the loop is total
over arbitrary servers; exhausted fuel is reported as an error, which never
occurs in the runs the theorems instantiate. -/
def postLoop {α : Type} (serve : Option Nat → Except String (GqlPage α)) :
    Nat → Option Nat → List α → Except String (List α)
  | 0, _, _ => .error "out of fuel"
  | fuel + 1, cursor, allRepos =>
    match serve cursor with
    | .error e => .error e
    | .ok page =>
      if page.hasNextPage then
        postLoop serve fuel (some page.endCursor) (allRepos ++ page.nodes)
      else
        .ok (allRepos ++ page.nodes)

/-- The client state touched by `fetchRepos`: the in-memory `repos` list,
the `error` message, and the persisted `repomgr_github` snapshot
(`storedRepos`). -/
structure ClientState (α : Type) where
  repos : List α
  error : String
  storedRepos : List α

/-- The token path of the client `fetchRepos`: run the proxy loop; on
success assign `repos` and persist them (`persistGithub`), on a thrown
error set the message, clear the in-memory list, and leave the persisted
snapshot untouched. -/
def fetchRepos {α : Type} (serve : Option Nat → Except String (GqlPage α))
    (fuel : Nat) (st : ClientState α) : ClientState α :=
  match postLoop serve fuel none [] with
  | .ok repos => { repos := repos, error := "", storedRepos := repos }
  | .error e => { repos := [], error := e, storedRepos := st.storedRepos }

/-- A concrete server whose first page succeeds with two records and
reports a next page, and whose second request fails. -/
def serveFailSecond : Option Nat → Except String (GqlPage Nat)
  | none => .ok ⟨[1, 2], true, 2⟩
  | some _ => .error "GitHub API error: 502"

/-! ## JSON values and the import/export codec

`JSON.parse` composed with `JSON.stringify` is the identity on the machine
JSON values below (JavaScript preserves object key order), so the codec is
embedded at the parsed-value level: `exportCustomData` produces the
envelope object and the import functions consume a parsed value. -/

/-- Machine JSON values. -/
inductive Json where
  | null : Json
  | bool : Bool → Json
  | num : Int → Json
  | str : String → Json
  | arr : List Json → Json
  | obj : List (String × Json) → Json
deriving Repr

/-- JavaScript truthiness of a JSON value (arrays and objects are always
truthy; `null`, `false`, `0` and `""` are falsy). -/
def Json.truthy : Json → Bool
  | .null => false
  | .bool b => b
  | .num n => n != 0
  | .str s => s != ""
  | .arr _ => true
  | .obj _ => true

/-- Member access `j[k]` on a parsed JSON value: a field lookup on objects,
`undefined` (here `none`) on anything else.  (On `null` the source throws a
`TypeError` that every import function catches before mutating any state,
so `none` yields the same observable outcome.) -/
def Json.get : Json → String → Option Json
  | .obj fields, k => lookupStr fields k
  | _, _ => none

/-- The annotation state of the newer page component: the five fields
persisted under `repomgr_custom`.  The fields hold the raw (parsed) JSON
values the source assigns, so the import functions can be embedded without
a decoding step. -/
structure CustomState where
  classes : Json
  repoClasses : Json
  customUrls : Json
  repoEnabled : Json
  repoDescriptions : Json

/-- The `exportCustomData` envelope
`{classes, repoClasses, customUrls, repoEnabled, repoDescriptions}`
(the source serializes it with `JSON.stringify`; the embedding stays at the
parsed-value level). -/
def exportCustomData (s : CustomState) : Json :=
  .obj [("classes", s.classes), ("repoClasses", s.repoClasses),
    ("customUrls", s.customUrls), ("repoEnabled", s.repoEnabled),
    ("repoDescriptions", s.repoDescriptions)]

/-- One `if (parsed.key) field = parsed.key` step of the import functions:
assign the raw parsed value when the key is present and truthy, keep the
current value otherwise. -/
def importField (parsed : Json) (key : String) (cur : Json) : Json :=
  match parsed.get key with
  | some v => if v.truthy then v else cur
  | none => cur

/-- The `importCustomData` function of the newer page component, at the
parsed-value level: each of the five top-level keys is assigned verbatim
when present and truthy.  (A `JSON.parse` failure is caught before any
assignment, leaving the state unchanged — the same as a payload with none
of the keys.) -/
def importCustomData (parsed : Json) (s : CustomState) : CustomState :=
  { classes := importField parsed "classes" s.classes
    repoClasses := importField parsed "repoClasses" s.repoClasses
    customUrls := importField parsed "customUrls" s.customUrls
    repoEnabled := importField parsed "repoEnabled" s.repoEnabled
    repoDescriptions := importField parsed "repoDescriptions" s.repoDescriptions }

/-- The `importTofuOutput` function of the newer page component: when
`parsed.pages_urls?.value` is truthy it REPLACES the whole tofu-URL layer;
otherwise the layer is untouched. -/
def importTofuOutput (parsed : Json) (tofuUrls : Json) : Json :=
  match parsed.get "pages_urls" with
  | some pu =>
    match pu.get "value" with
    | some v => if v.truthy then v else tofuUrls
    | none => tofuUrls
  | none => tofuUrls

/-- The annotation state of the older page component (`+page.svelte`): its
custom-URL layer is keyed `repoUrls`. -/
structure ClassState where
  classes : Json
  repoClasses : Json
  repoUrls : Json
  repoEnabled : Json
  repoDescriptions : Json

/-- Assignment `j[k] = v` on a parsed JSON object (non-objects are outside
the modelled domain of the import payloads exercised here). -/
def Json.set (j : Json) (k : String) (v : Json) : Json :=
  match j with
  | .obj fields => .obj (setKey fields k v)
  | other => other

/-- The elements of `repoUrls[key] || []` as spread by the legacy append
loop.  In-app states keep arrays under every URL key; other truthy values
are outside the modelled domain (the source would throw there, aborting
the legacy merge and keeping the remaining state). -/
def Json.asArr (j : Option Json) : List Json :=
  match j with
  | some (.arr xs) => xs
  | _ => []

/-- The migration loop of `importClassData`: every bare-string URL value in
the imported object is replaced by a singleton array, or by an empty array
when the string is empty; non-string values are kept as they are. -/
def migrateUrls (urls : Json) : Json :=
  match urls with
  | .obj fields => .obj (fields.map (fun kv =>
      (kv.1, match kv.2 with
        | .str s => if s = "" then Json.arr [] else Json.arr [Json.str s]
        | other => other)))
  | other => other

/-- The legacy `pages_urls.value` loop of `importClassData`: every
non-empty string value is APPENDED to the current array under its
repository name (an empty or non-string value is skipped). -/
def appendPages (value : Json) (repoUrls : Json) : Json :=
  match value with
  | .obj entries => entries.foldl (fun ru kv =>
      match kv.2 with
      | .str s =>
        if s ≠ "" then ru.set kv.1 (Json.arr (Json.asArr (ru.get kv.1) ++ [Json.str s]))
        else ru
      | _ => ru) repoUrls
  | _ => repoUrls

/-- The `importClassData` function of the older page component: the five
annotation keys are imported like `importCustomData` except that a truthy
`repoUrls` value passes through the bare-string migration first; then a
truthy legacy `pages_urls.value` object is appended per repository name
into the (possibly just imported) `repoUrls` layer. -/
def importClassData (parsed : Json) (s : ClassState) : ClassState :=
  let repoUrls₀ :=
    match parsed.get "repoUrls" with
    | some v => if v.truthy then migrateUrls v else s.repoUrls
    | none => s.repoUrls
  let repoUrls :=
    match parsed.get "pages_urls" with
    | some pu =>
      match pu.get "value" with
      | some v => if v.truthy then appendPages v repoUrls₀ else repoUrls₀
      | none => repoUrls₀
    | none => repoUrls₀
  { classes := importField parsed "classes" s.classes
    repoClasses := importField parsed "repoClasses" s.repoClasses
    repoUrls := repoUrls
    repoEnabled := importField parsed "repoEnabled" s.repoEnabled
    repoDescriptions := importField parsed "repoDescriptions" s.repoDescriptions }

/-! ## Concrete fixtures used by witnesses and counterexamples -/

/-- A repository record with the given owner, name and type flags (the
remaining fields are irrelevant to the properties below). -/
def mkRepo (owner name : String) (fork isPrivate : Bool) : Repo :=
  { name := name, html_url := "", description := none, language := none,
    fork := fork, isPrivate := isPrivate, stargazers_count := 0,
    created_at := "", size := 0, owner := owner, commits := none }

/-- A repository owned by `o` and named `n`. -/
def repoON : Repo := mkRepo "o" "n" false false

/-- Two public, one private and one fork repository. -/
def sampleRepos : List Repo :=
  [mkRepo "o" "pub1" false false, mkRepo "o" "pub2" false false,
    mkRepo "o" "priv1" false true, mkRepo "o" "fork1" true false]

/-! ## Claims -/

/-- C1 counterexample: with no tofu URL and the custom-URL layer keyed by
the owner-qualified key `"o/n"`, the reconciled sequence for the repository
`o/n` is empty — the code looks custom URLs up by the bare name `"n"`, not
by the owner-qualified key the claim states; and an empty string stored in
a custom-URL array survives into the reconciled sequence instead of being
filtered out. -/
theorem c1_counterexample :
    pagesUrlsOf [] [("o/n", ["http://a"])] repoON
        ≠ (lookupStr [("o/n", ["http://a"])] (repoKey repoON)).getD []
      ∧ pagesUrlsOf [] [("n", [""])] repoON
        ≠ List.filter (fun s => !(s == "")) (customPart [("n", [""])] "n") := by
  constructor
  · intro h
    simp [pagesUrlsOf, combinedUrls, lookupStr, setKey, repoKey, repoON, mkRepo] at h
  · intro h
    simp [pagesUrlsOf, combinedUrls, customPart, lookupStr, setKey, repoON, mkRepo] at h

/-- C1 (amended): for every repository in the fetched list, the reconciled
URL sequence equals the infra-layer (tofu) URL for the repository's bare
name — included only if present and non-empty, placed first — followed by
the custom-URL layer's array looked up by the same bare name (if present),
in order, with no deduplication, no reordering, and no filtering of the
custom entries (only the infra entry is dropped when empty). -/
theorem c1_reconciled_urls (tofuUrls : List (String × String))
    (customUrls : List (String × List String)) (r : Repo)
    (h1 : (tofuUrls.map Prod.fst).Nodup) (h2 : (customUrls.map Prod.fst).Nodup) :
    pagesUrlsOf tofuUrls customUrls r =
      tofuPart tofuUrls r.name ++ customPart customUrls r.name :=
  pagesUrlsOf_eq tofuUrls customUrls r h1 h2

/-- Witness for C1 at a concrete input: one tofu URL and a two-element
custom array (containing an empty entry that is preserved). -/
theorem c1_witness :
    pagesUrlsOf [("n", "t.example")] [("n", ["c1", ""])] repoON
      = ["t.example", "c1", ""] := by
  have h := c1_reconciled_urls [("n", "t.example")] [("n", ["c1", ""])] repoON
    (by decide) (by decide)
  rw [h]
  rfl

/-- C2 counterexample: with zero records the loop still issues one request
(`hasNextPage` starts out true), while `ceil(0 / 100) = 0`. -/
theorem c2_counterexample :
    (postPaginate ([] : List Nat) 0).2 ≠ (([] : List Nat).length + 99) / 100 := by
  have h := (postPaginate_eq ([] : List Nat) 0).2
  simp at h
  simp [h]

/-- C2 (amended): over the deterministic cursor server the token-path loop
returns every record exactly once, in order, and issues exactly
`max 1 (ceil (totalCount / 100))` requests — the `ceil` count of the claim,
except that an empty account still costs one request because the loop body
runs before `hasNextPage` is first inspected. -/
theorem c2_pagination {α : Type} (records : List α) :
    (postPaginate records 0).1 = records ∧
      (postPaginate records 0).2 = max 1 ((records.length + 99) / 100) := by
  have h := postPaginate_eq records 0
  simpa using h

/-- C4: whenever the proxy loop ends in an error — in particular when a
page request fails after earlier pages were accumulated — the partial
accumulation is discarded (`repos` is cleared), the error message is
surfaced, and the persisted snapshot keeps its previous (possibly empty)
value: persistence only happens on full success. -/
theorem c4_failed_fetch {α : Type} (serve : Option Nat → Except String (GqlPage α))
    (fuel : Nat) (st : ClientState α) (e : String)
    (h : postLoop serve fuel none [] = Except.error e) :
    (fetchRepos serve fuel st).storedRepos = st.storedRepos
      ∧ (fetchRepos serve fuel st).repos = []
      ∧ (fetchRepos serve fuel st).error = e := by
  simp [fetchRepos, h]

/-- Witness for C4: the first page succeeds with two records and announces
a next page, the second request fails; the previously stored snapshot
`[7]` survives and the partial accumulation is gone. -/
theorem c4_witness :
    (fetchRepos serveFailSecond 5 ⟨[7], "", [7]⟩).storedRepos = [7]
      ∧ (fetchRepos serveFailSecond 5 ⟨[7], "", [7]⟩).repos = []
      ∧ (fetchRepos serveFailSecond 5 ⟨[7], "", [7]⟩).error = "GitHub API error: 502" :=
  c4_failed_fetch serveFailSecond 5 ⟨[7], "", [7]⟩ "GitHub API error: 502" rfl

/-- C6: the type-category filter value `"Sources"` matches a record exactly
when its computed type is `"Public"` or `"Private"` (excluding exactly the
`"Fork"` records), and on 2 public + 1 private + 1 fork repositories it
selects exactly the 3 non-fork records. -/
theorem c6_sources_filter :
    (∀ r : Repo, typeFilterFn r "Sources"
        = (getType r == "Public" || getType r == "Private"))
      ∧ sampleRepos.filter (fun r => typeFilterFn r "Sources")
        = [mkRepo "o" "pub1" false false, mkRepo "o" "pub2" false false,
            mkRepo "o" "priv1" false true] := by
  constructor
  · intro r
    simp [typeFilterFn]
  · rfl

/-- C7: the class-label filter value `"(none)"` matches a record exactly
when its class label is empty, where a repo key absent from the mapping and
a repo key mapped to the empty string behave identically. -/
theorem c7_none_filter (repoClasses : List (String × String)) (r : Repo) :
    classFilterFn repoClasses r "(none)"
      = match lookupStr repoClasses (repoKey r) with
        | none => true
        | some s => s == "" := by
  cases h : lookupStr repoClasses (repoKey r) <;>
    simp [classFilterFn, h]

/-- C8: the resolved description is the user's override when non-empty,
otherwise the remote description when present, otherwise empty; an
empty-string override is treated as absent. -/
theorem c8_resolved_description (repoDescriptions : List (String × String)) (r : Repo) :
    resolvedDescription repoDescriptions r = resolvedDescriptionSpec repoDescriptions r := by
  unfold resolvedDescription resolvedDescriptionSpec jsOrString
  cases h : lookupStr repoDescriptions (repoKey r) with
  | none =>
    cases hd : r.description with
    | none => simp
    | some d => by_cases hde : d = "" <;> simp [hde]
  | some o =>
    by_cases ho : o = ""
    · cases hd : r.description with
      | none => simp [ho]
      | some d => by_cases hde : d = "" <;> simp [ho, hde]
    · simp [ho]

/-- An annotation state with empty layers. -/
def emptyCustom : CustomState :=
  ⟨Json.arr [], Json.obj [], Json.obj [], Json.obj [], Json.obj []⟩

/-- An annotation state whose custom-URL layer already holds `["a"]` under
`"r"`. -/
def customWithR : CustomState :=
  ⟨Json.arr [], Json.obj [], Json.obj [("r", Json.arr [Json.str "a"])],
    Json.obj [], Json.obj []⟩

/-- C3 counterexample: `importCustomData` of the newer page performs no
bare-string migration — importing `{customUrls:{"r":"http://x"}}` stores
the bare string `"http://x"`, not the singleton array — and a
`{pages_urls:{value:{"r":"http://y"}}}` payload leaves `customUrls["r"]`
untouched (it replaces the separate tofu-URL layer instead of appending). -/
theorem c3_counterexample :
    (importCustomData (Json.obj [("customUrls", Json.obj [("r", Json.str "http://x")])])
        emptyCustom).customUrls
      ≠ Json.obj [("r", Json.arr [Json.str "http://x"])]
    ∧ (importCustomData (Json.obj [("pages_urls",
          Json.obj [("value", Json.obj [("r", Json.str "http://y")])])])
        customWithR).customUrls
      = Json.obj [("r", Json.arr [Json.str "a"])] := by
  constructor
  · intro h
    simp [importCustomData, importField, Json.get, Json.truthy, lookupStr,
      emptyCustom] at h
  · rfl

/-- C3 (amended): the bare-string-to-array migration and the additive
`pages_urls` merge live in the older page's `importClassData` and apply to
its custom-URL layer keyed `repoUrls`: a bare string under `repoUrls`
becomes a singleton array (empty array when the string is empty), and a
legacy `{pages_urls:{value:{[name]:string}}}` payload appends each URL to
the existing array under that name rather than replacing it.  The newer
page's `importCustomData` assigns `customUrls` verbatim without migration,
and its `pages_urls` import (`importTofuOutput`) replaces the separate
tofu-URL layer. -/
theorem c3_import_migration (k sU : String) (xs : List Json) (s : ClassState)
    (tofu : Json) (cu : Json) :
    ((importClassData (Json.obj [("repoUrls", Json.obj [(k, Json.str sU)])]) s).repoUrls
      = Json.obj [(k, if sU = "" then Json.arr [] else Json.arr [Json.str sU])])
    ∧ ((importClassData (Json.obj [("pages_urls",
          Json.obj [("value", Json.obj [("r", Json.str "http://y")])])])
        { s with repoUrls := Json.obj [("r", Json.arr xs)] }).repoUrls
      = Json.obj [("r", Json.arr (xs ++ [Json.str "http://y"]))])
    ∧ ((importCustomData (Json.obj [("customUrls", cu)])
        { emptyCustom with customUrls := Json.obj [] }).customUrls
      = if cu.truthy then cu else Json.obj [])
    ∧ (importTofuOutput (Json.obj [("pages_urls",
          Json.obj [("value", Json.obj [("r", Json.str "http://y")])])]) tofu
      = Json.obj [("r", Json.str "http://y")]) := by
  refine ⟨?_, ?_, ?_, ?_⟩
  · simp [importClassData, migrateUrls, Json.get, Json.truthy, lookupStr]
  · simp [importClassData, appendPages, Json.get, Json.set, Json.asArr,
      Json.truthy, lookupStr, setKey]
  · simp [importCustomData, importField, Json.get, Json.truthy, lookupStr,
      emptyCustom]
  · rfl

/-- C5: importing the export of an annotation state restores every one of
the five fields (classes, repoClasses, customUrls, repoEnabled,
repoDescriptions) to its pre-export value. -/
theorem c5_roundtrip (s : CustomState) :
    importCustomData (exportCustomData s) s = s := by
  cases s with
  | mk c rc cu re rd =>
    simp [importCustomData, exportCustomData, importField, Json.get, lookupStr,
      ite_self]

/-- C9: the no-token REST loop (page size 100) returns every record exactly
once; it issues `totalCount / 100 + 1` requests — i.e. it stops exactly at
the first page shorter than 100 records: every earlier page is full, the
final page holds `totalCount % 100` records, and when 100 divides a
positive `totalCount` that final page is the one extra empty request, which
terminates the loop cleanly. -/
theorem c9_rest_pagination {α : Type} (records : List α) :
    (restPaginate records 1).1 = records
      ∧ (restPaginate records 1).2 = records.length / 100 + 1
      ∧ (serveRest records (records.length / 100 + 1)).length = records.length % 100
      ∧ ((List.range (records.length / 100)).all
          (fun i => (serveRest records (i + 1)).length == 100)) = true := by
  obtain ⟨h1, h2⟩ := restPaginate_eq records 1 (le_refl 1)
  refine ⟨by simpa using h1, by simpa using h2, ?_, ?_⟩
  · simp only [serveRest, List.length_take, List.length_drop]
    omega
  · simp only [List.all_eq_true, List.mem_range, beq_iff_eq, decide_eq_true_eq]
    intro i hi
    simp only [serveRest, List.length_take, List.length_drop]
    omega

theorem importField_unchanged (fields : List (String × Json)) (k : String) (cur : Json)
    (h : ∀ v, lookupStr fields k = some v → v.truthy = false) :
    importField (Json.obj fields) k cur = cur := by
  simp only [importField, Json.get]
  cases hl : lookupStr fields k with
  | none => simp [hl]
  | some v => simp [hl, h v hl]

/-- C10: for each of the five annotation fields, an import payload whose
top-level key for that field is absent or maps to a falsy JSON value
(null, false, 0, empty string) leaves the in-memory field unchanged; a
falsy present key is indistinguishable from a missing one. -/
theorem c10_falsy_keys_preserve (fields : List (String × Json)) (s : CustomState) :
    ((∀ v, lookupStr fields "classes" = some v → v.truthy = false) →
        (importCustomData (Json.obj fields) s).classes = s.classes)
    ∧ ((∀ v, lookupStr fields "repoClasses" = some v → v.truthy = false) →
        (importCustomData (Json.obj fields) s).repoClasses = s.repoClasses)
    ∧ ((∀ v, lookupStr fields "customUrls" = some v → v.truthy = false) →
        (importCustomData (Json.obj fields) s).customUrls = s.customUrls)
    ∧ ((∀ v, lookupStr fields "repoEnabled" = some v → v.truthy = false) →
        (importCustomData (Json.obj fields) s).repoEnabled = s.repoEnabled)
    ∧ ((∀ v, lookupStr fields "repoDescriptions" = some v → v.truthy = false) →
        (importCustomData (Json.obj fields) s).repoDescriptions = s.repoDescriptions) :=
  ⟨fun h => importField_unchanged fields "classes" s.classes h,
    fun h => importField_unchanged fields "repoClasses" s.repoClasses h,
    fun h => importField_unchanged fields "customUrls" s.customUrls h,
    fun h => importField_unchanged fields "repoEnabled" s.repoEnabled h,
    fun h => importField_unchanged fields "repoDescriptions" s.repoDescriptions h⟩

/-- A payload whose present annotation keys all carry falsy values
(`repoClasses` is absent altogether). -/
def falsyFields : List (String × Json) :=
  [("classes", Json.bool false), ("customUrls", Json.num 0),
    ("repoEnabled", Json.null), ("repoDescriptions", Json.str "")]

/-- Witness for C10: importing the all-falsy payload into a non-trivial
state leaves all five fields unchanged. -/
theorem c10_witness :
    (importCustomData (Json.obj falsyFields) customWithR).classes = customWithR.classes
    ∧ (importCustomData (Json.obj falsyFields) customWithR).repoClasses
      = customWithR.repoClasses
    ∧ (importCustomData (Json.obj falsyFields) customWithR).customUrls
      = customWithR.customUrls
    ∧ (importCustomData (Json.obj falsyFields) customWithR).repoEnabled
      = customWithR.repoEnabled
    ∧ (importCustomData (Json.obj falsyFields) customWithR).repoDescriptions
      = customWithR.repoDescriptions := by
  have h := c10_falsy_keys_preserve falsyFields customWithR
  refine ⟨h.1 ?_, h.2.1 ?_, h.2.2.1 ?_, h.2.2.2.1 ?_, h.2.2.2.2 ?_⟩ <;>
      intro v hv <;>
      simp [falsyFields, lookupStr] at hv <;>
      try (subst hv; rfl)

end Repomgr
